import Mathlib

/-!
Shallow embedding of the robots.txt content synthesizer of
`vite-plugin-robots-txt` (`src/index.ts`, with the sibling variant
`vite/plugins/generate-robots.ts`), together with the file-writing sink.
JavaScript strings are modelled as `List Char`; the two regular-expression
replacements of the source are modelled operationally, character by
character, following ECMAScript matching semantics.
-/

/-- A JavaScript string, modelled as its list of characters. -/
abbrev Str := List Char

/-- Embed a Lean string literal as a `Str`. -/
def str (s : String) : Str := s.data

/-- ECMAScript whitespace class membership, as matched by the regex class
backslash-s and used by `String.prototype.trim` / `trimEnd`. -/
def isJsWs (c : Char) : Bool :=
  c = ' ' || c = '\t' || c = '\n' || c = '\x0B' || c = '\x0C' || c = '\r' ||
  c = '\u00A0' || c = '\u1680' || c = '\u2000' || c = '\u2001' || c = '\u2002' ||
  c = '\u2003' || c = '\u2004' || c = '\u2005' || c = '\u2006' || c = '\u2007' ||
  c = '\u2008' || c = '\u2009' || c = '\u200A' || c = '\u2028' || c = '\u2029' ||
  c = '\u202F' || c = '\u205F' || c = '\u3000' || c = '\uFEFF'

/-- ECMAScript line terminators, the positions where a multiline `$` matches. -/
def isLineTerm (c : Char) : Bool :=
  c = '\n' || c = '\r' || c = '\u2028' || c = '\u2029'

/-- Model of `String.prototype.trim`: strip leading and trailing JS whitespace. -/
def jsTrim (s : Str) : Str :=
  ((s.dropWhile isJsWs).reverse.dropWhile isJsWs).reverse

/-- Model of `String.prototype.trimEnd`: strip trailing JS whitespace
(used by the `generate-robots.ts` variant of `serializePolicies`). -/
def jsTrimEnd (s : Str) : Str :=
  (s.reverse.dropWhile isJsWs).reverse

/-- Model of `Array.prototype.join("\n")`. -/
def joinNl : List Str → Str
  | [] => []
  | [x] => x
  | x :: y :: xs => x ++ '\n' :: joinNl (y :: xs)

/-- Model of `String.prototype.split("\n")`: the line structure of a string.
Used only to state line-level properties of the produced text. -/
def splitNl : Str → List Str
  | [] => [[]]
  | c :: cs =>
    if c = '\n' then [] :: splitNl cs
    else
      match splitNl cs with
      | [] => [[c]]
      | r :: rs => (c :: r) :: rs

/-- Length of the maximal prefix of JS whitespace characters. -/
def wsRunLen : Str → Nat
  | [] => 0
  | c :: cs => if isJsWs c then wsRunLen cs + 1 else 0

/-- Whether the position at the head of the given suffix is a multiline
end-of-line position: end of input or just before a line terminator. -/
def isLineEndAt (s : Str) : Bool :=
  match s with
  | [] => true
  | c :: _ => isLineTerm c

/-- Greedy-with-backtracking extent of a whitespace-plus-end-of-line match
starting at the head of `s`: the largest `k` between `1` and the given
whitespace-run bound such that dropping `k` characters lands on an
end-of-line position. -/
def bestMatchLen (s : Str) : Nat → Option Nat
  | 0 => none
  | k + 1 => if isLineEndAt (s.drop (k + 1)) then some (k + 1) else bestMatchLen s k

/-- Model of the ECMAScript call `s.replace(/\s+$/m, "")`: remove the
leftmost (then greedily longest) run of whitespace that ends at a
multiline end-of-line position; at most one replacement is performed. -/
def replaceWsEolFirst : Str → Str
  | [] => []
  | c :: cs =>
    if isJsWs c then
      match bestMatchLen (c :: cs) (wsRunLen (c :: cs)) with
      | some k => (c :: cs).drop k
      | none => c :: replaceWsEolFirst cs
    else c :: replaceWsEolFirst cs

/-- Number of newline characters at the very end of the string. -/
def countTrailNl (s : Str) : Nat :=
  (s.reverse.takeWhile (fun c => c = '\n')).length

/-- Model of the ECMAScript call `s.replace(/\n{3,}$/g, "\n\n")`: without
the `m` flag, `$` only matches the very end of the input, so the sole
possible match is the maximal trailing run of newlines when it has length
at least three; it is replaced by exactly two newlines. -/
def collapseEndNl (s : Str) : Str :=
  if 3 ≤ countTrailNl s then
    (s.reverse.dropWhile (fun c => c = '\n')).reverse ++ str "\n\n"
  else s

/-- One user-agent block (`RobotsPolicy` in the source; absent fields are
`Option.none`). -/
structure RobotsPolicy where
  userAgent : Option Str := none
  allow : Option (List Str) := none
  disallow : Option (List Str) := none
deriving DecidableEq

/-- Vite invocation phase (`"serve" | "build"`). -/
inductive Cmd where
  | serve
  | build
deriving DecidableEq

/-- The context handed to builder callbacks (`{ mode, command, root }`). -/
structure Ctx where
  mode : Str
  command : Cmd
  root : Str

/-- The `sitemaps` option: absent, a plain list, or a builder callback. -/
inductive SitemapsOpt where
  | absent
  | arr (us : List Str)
  | func (f : Ctx → Option (List Str))

/-- The `footerComment` option: absent, a plain string, or a builder callback. -/
inductive FooterOpt where
  | absent
  | strv (s : Str)
  | func (f : Ctx → Option Str)

/-- The options structure (`RobotsOptions`); only the fields consumed by
`buildContent` are modelled, the file-name and directory options being
plugin wiring. -/
structure RobotsOptions where
  policies : Option (List RobotsPolicy) := none
  policyBuilder : Option (Ctx → List RobotsPolicy) := none
  sitemaps : SitemapsOpt := .absent
  footerComment : FooterOpt := .absent

/-- Source `uniq`: `Array.from(new Set(arr ?? []))` — deduplicate keeping the
order of first insertion into the set. -/
def uniq (arr : Option (List Str)) : List Str :=
  (arr.getD []).foldl (fun acc x => if x ∈ acc then acc else acc ++ [x]) []

/-- Specification-side first-occurrence deduplication: keep each element's
first occurrence, dropping later duplicates. Stated from the spec's words
("deduplicated (set semantics) but preserve first-occurrence order") to be
compared with the source's `uniq`. -/
def dedupFO : List Str → List Str
  | [] => []
  | x :: xs => x :: dedupFO (xs.filter (fun y => y ≠ x))
termination_by l => l.length
decreasing_by
  simp_wf
  exact Nat.lt_succ_of_le (List.length_filter_le _ _)

/-- Source `lines(...xs)`: `xs.filter(Boolean)` — at its call site all arguments
are strings, and the only falsy string is the empty one. -/
def lines (xs : List Str) : List Str :=
  xs.filter (fun s => s ≠ [])

/-- The `User-agent` value of a policy: `(p.userAgent ?? "*").trim() || "*"`. -/
def uaOf (p : RobotsPolicy) : Str :=
  let t := jsTrim (p.userAgent.getD (str "*"))
  if t = [] then str "*" else t

/-- The `User-agent: <ua>` line of a policy block. -/
def uaLine (p : RobotsPolicy) : Str := str "User-agent: " ++ uaOf p

/-- A `Disallow: <path>` line. -/
def dLine (d : Str) : Str := str "Disallow: " ++ d

/-- An `Allow: <path>` line. -/
def aLine (a : Str) : Str := str "Allow: " ++ a

/-- The lines of one rendered policy block:
`lines(`User-agent: ${ua}`, ...dis, ...allow, "")`. -/
def policyBlockLines (p : RobotsPolicy) : List Str :=
  lines ([uaLine p] ++ (uniq p.disallow).map dLine ++ (uniq p.allow).map aLine ++ [[]])

/-- One rendered policy block: the block lines joined with newlines. -/
def policyBlock (p : RobotsPolicy) : Str :=
  joinNl (policyBlockLines p)

/-- Source `serializePolicies` of `src/index.ts`:
`blocks.join("\n").replace(/\s+$/m, "") + "\n"`. -/
def serializePolicies (ps : List RobotsPolicy) : Str :=
  replaceWsEolFirst (joinNl (ps.map policyBlock)) ++ str "\n"

/-- Source `serializePolicies` of the `generate-robots.ts` variant:
`blocks.join("\n").trimEnd() + "\n"`. -/
def serializePoliciesA (ps : List RobotsPolicy) : Str :=
  jsTrimEnd (joinNl (ps.map policyBlock)) ++ str "\n"

/-- Source `defaultPolicies()`: allow-all for every agent. -/
def defaultPolicies : List RobotsPolicy :=
  [{ userAgent := some (str "*"), allow := some [str "/"], disallow := some [] }]

/-- Policy resolution of `buildContent`:
`(opts.policies && opts.policies.length ? opts.policies : absentined) ??
 (opts.policyBuilder ? opts.policyBuilder(ctx) : absentined) ??
 defaultPolicies()`.
The builder's result is typed `RobotsPolicy[]`, hence never nullish, so the
final fallback applies exactly when no builder is supplied. -/
def resolvePolicies (ctx : Ctx) (o : RobotsOptions) : List RobotsPolicy :=
  match (match o.policies with
         | some l => if l = [] then none else some l
         | none => none) with
  | some l => l
  | none =>
    match o.policyBuilder with
    | some f => f ctx
    | none => defaultPolicies

/-- Sitemap resolution: a builder callback is applied to the context, a
plain array is taken as is, and anything else resolves to `absentined`. -/
def resolveSitemaps (ctx : Ctx) (o : RobotsOptions) : Option (List Str) :=
  match o.sitemaps with
  | .func f => f ctx
  | .arr us => some us
  | .absent => none

/-- Footer resolution: a builder callback is applied to the context, a
plain string is taken as is, and anything else resolves to `absentined`. -/
def resolveFooter (ctx : Ctx) (o : RobotsOptions) : Option Str :=
  match o.footerComment with
  | .func f => f ctx
  | .strv s => some s
  | .absent => none

/-- One `Sitemap: <url>` line. -/
def smLine (u : Str) : Str := str "Sitemap: " ++ u

/-- Source `smBlock`: `sitemaps?.length ? sitemaps.map(u => `Sitemap: ${u}`).join("\n") + "\n" : ""`. -/
def smBlockOf (ctx : Ctx) (o : RobotsOptions) : Str :=
  match resolveSitemaps ctx o with
  | some us => if us = [] then [] else joinNl (us.map smLine) ++ str "\n"
  | none => []

/-- The sitemap section as spliced into the output:
`smBlock ? `\n${smBlock}` : ""`. -/
def smPartOf (ctx : Ctx) (o : RobotsOptions) : Str :=
  if smBlockOf ctx o = [] then [] else '\n' :: smBlockOf ctx o

/-- Source `footerBlock`: `foot ? `\n# ${foot.trim()}\n` : ""` — note the guard is
JS truthiness of the unresolved string, so any non-empty string (even one
that trims to nothing) produces a block. -/
def footerBlockOf (ctx : Ctx) (o : RobotsOptions) : Str :=
  match resolveFooter ctx o with
  | some f => if f = [] then [] else '\n' :: (str "# " ++ jsTrim f ++ str "\n")
  | none => []

/-- Source `buildContent` of `src/index.ts`:
`(head + (smBlock ? `\n${smBlock}` : "") + footerBlock).replace(/\n{3,}$/g, "\n\n")`. -/
def buildContent (ctx : Ctx) (o : RobotsOptions) : Str :=
  collapseEndNl
    (serializePolicies (resolvePolicies ctx o) ++ smPartOf ctx o ++ footerBlockOf ctx o)

/-- Source `buildContent` of the `generate-robots.ts` variant, which differs only
by using the `trimEnd` form of `serializePolicies`. -/
def buildContentA (ctx : Ctx) (o : RobotsOptions) : Str :=
  collapseEndNl
    (serializePoliciesA (resolvePolicies ctx o) ++ smPartOf ctx o ++ footerBlockOf ctx o)

/-- File-system state for the emit sink: the set of existing directories
and the contents of each file path. -/
structure FileSystem where
  dirs : List Str
  files : Str → Option Str

/-- Source `ensureDir`: `if (!fs.existsSync(dir)) fs.mkdirSync(dir, {recursive: true})`. -/
def ensureDir (dir : Str) (fs : FileSystem) : FileSystem :=
  if dir ∈ fs.dirs then fs else { fs with dirs := dir :: fs.dirs }

/-- Source `writeFileIfChanged`: ensure the parent directory exists, read the
existing file, and write only when the file is absent or its contents
differ. Returns the new state and whether a write was performed.
`path.dirname` is Node glue and is abstracted as a parameter. -/
def writeFileIfChanged (dirname : Str → Str) (filePath content : Str)
    (fs : FileSystem) : FileSystem × Bool :=
  let fs1 := ensureDir (dirname filePath) fs
  let existed := (fs1.files filePath).isSome
  let old := fs1.files filePath
  if ¬ existed ∨ ¬ (old = some content) then
    ({ fs1 with files := fun p => if p = filePath then some content else fs1.files p }, true)
  else (fs1, false)

/-- A fixed context used to instantiate universally quantified theorems. -/
def ctxW : Ctx := { mode := str "production", command := .build, root := str "/app" }

/-- A second, distinct context for the noninterference instance. -/
def ctxW2 : Ctx := { mode := str "development", command := .serve, root := str "/tmp" }

/-! ### Helper lemmas: first-occurrence deduplication -/

theorem mem_dedupFO : ∀ (l : List Str) (a : Str), a ∈ dedupFO l ↔ a ∈ l
  | [], a => by simp [dedupFO]
  | x :: xs, a => by
    have ih := mem_dedupFO (xs.filter (fun y => y ≠ x)) a
    rw [dedupFO]
    simp only [List.mem_cons, ih, List.mem_filter, decide_eq_true_eq]
    constructor
    · rintro (rfl | ⟨h, _⟩)
      · exact Or.inl rfl
      · exact Or.inr h
    · rintro (rfl | h)
      · exact Or.inl rfl
      · by_cases hx : a = x
        · exact Or.inl hx
        · exact Or.inr ⟨h, hx⟩
termination_by l _ => l.length
decreasing_by
  simp_wf
  exact Nat.lt_succ_of_le (List.length_filter_le _ _)

theorem nodup_dedupFO : ∀ (l : List Str), (dedupFO l).Nodup
  | [] => by simp [dedupFO]
  | x :: xs => by
    rw [dedupFO]
    refine List.nodup_cons.mpr ⟨?_, nodup_dedupFO (xs.filter (fun y => y ≠ x))⟩
    intro hx
    have := (mem_dedupFO _ x).mp hx
    simp at this
termination_by l => l.length
decreasing_by
  simp_wf
  exact Nat.lt_succ_of_le (List.length_filter_le _ _)

theorem foldl_uniq_aux :
    ∀ (l acc : List Str),
      l.foldl (fun acc x => if x ∈ acc then acc else acc ++ [x]) acc
        = acc ++ dedupFO (l.filter (fun y => ¬ (y ∈ acc)))
  | [], acc => by simp [dedupFO]
  | x :: xs, acc => by
    rw [List.foldl_cons, List.filter_cons]
    by_cases hx : x ∈ acc
    · rw [if_pos hx]
      have hc : ((fun y => decide ¬ (y ∈ acc)) x) = false := by simp [hx]
      simp only [hc, Bool.false_eq_true, if_false]
      exact foldl_uniq_aux xs acc
    · rw [if_neg hx]
      have hc : ((fun y => decide ¬ (y ∈ acc)) x) = true := by simp [hx]
      simp only [hc, if_true]
      rw [foldl_uniq_aux xs (acc ++ [x]), dedupFO, List.filter_filter, List.append_assoc,
        List.cons_append, List.nil_append]
      congr 3
      apply List.filter_congr
      intro y _
      by_cases h1 : y ∈ acc <;> by_cases h2 : y = x <;> simp [h1, h2]

theorem uniq_eq_dedupFO (arr : Option (List Str)) : uniq arr = dedupFO (arr.getD []) := by
  rw [uniq, foldl_uniq_aux]
  simp

/-! ### Helper lemmas: block lines -/

theorem uaLine_ne_nil (p : RobotsPolicy) : uaLine p ≠ [] := by
  intro h
  have h1 : (uaLine p).head? = some 'U' := rfl
  rw [h] at h1
  exact absurd h1 (by decide)

theorem dLine_ne_nil (d : Str) : dLine d ≠ [] := by
  intro h
  have h1 : (dLine d).head? = some 'D' := rfl
  rw [h] at h1
  exact absurd h1 (by decide)

theorem aLine_ne_nil (a : Str) : aLine a ≠ [] := by
  intro h
  have h1 : (aLine a).head? = some 'A' := rfl
  rw [h] at h1
  exact absurd h1 (by decide)

theorem dLine_injective : Function.Injective dLine := by
  intro a b h
  exact List.append_cancel_left h

theorem aLine_injective : Function.Injective aLine := by
  intro a b h
  exact List.append_cancel_left h

theorem uaLine_ne_dLine (p : RobotsPolicy) (d : Str) : uaLine p ≠ dLine d := by
  intro h
  have h1 : (uaLine p).head? = some 'U' := rfl
  have h2 : (dLine d).head? = some 'D' := rfl
  rw [h, h2] at h1
  exact absurd h1 (by decide)

theorem uaLine_ne_aLine (p : RobotsPolicy) (a : Str) : uaLine p ≠ aLine a := by
  intro h
  have h1 : (uaLine p).head? = some 'U' := rfl
  have h2 : (aLine a).head? = some 'A' := rfl
  rw [h, h2] at h1
  exact absurd h1 (by decide)

theorem dLine_ne_aLine (d a : Str) : dLine d ≠ aLine a := by
  intro h
  have h1 : (dLine d).head? = some 'D' := rfl
  have h2 : (aLine a).head? = some 'A' := rfl
  rw [h, h2] at h1
  exact absurd h1 (by decide)

theorem lines_append_nil (xs : List Str) (h : ∀ x ∈ xs, x ≠ []) :
    lines (xs ++ [[]]) = xs := by
  rw [lines, List.filter_append]
  have h1 : xs.filter (fun s => s ≠ []) = xs := by
    apply List.filter_eq_self.mpr
    intro a ha
    simpa using h a ha
  have h2 : List.filter (fun s : Str => s ≠ []) [[]] = [] := by simp
  rw [h1, h2, List.append_nil]

theorem policyBlockLines_eq (p : RobotsPolicy) :
    policyBlockLines p
      = uaLine p :: ((uniq p.disallow).map dLine ++ (uniq p.allow).map aLine) := by
  have hgrp : policyBlockLines p
      = lines ((uaLine p :: ((uniq p.disallow).map dLine ++ (uniq p.allow).map aLine)) ++ [[]]) := by
    rw [policyBlockLines]
    simp [List.append_assoc]
  rw [hgrp]
  apply lines_append_nil
  intro x hx
  rcases List.mem_cons.mp hx with rfl | hx
  · exact uaLine_ne_nil p
  rcases List.mem_append.mp hx with hx | hx
  · obtain ⟨d, _, rfl⟩ := List.mem_map.mp hx
    exact dLine_ne_nil d
  · obtain ⟨a, _, rfl⟩ := List.mem_map.mp hx
    exact aLine_ne_nil a

theorem count_map_inj (f : Str → Str) (hf : Function.Injective f) :
    ∀ (l : List Str) (x : Str), (l.map f).count (f x) = l.count x
  | [], _ => rfl
  | y :: ys, x => by
    rw [List.map_cons, List.count_cons, List.count_cons, count_map_inj f hf ys x]
    by_cases h : x = y
    · simp [h]
    · have hfx : ¬ (f x = f y) := fun hc => h (hf hc)
      have hfy : ¬ (f y = f x) := fun hc => hfx hc.symm
      simp [h, hfx, hfy, Ne.symm h]

theorem count_one_of_nodup_mem {a : Str} : ∀ {l : List Str}, l.Nodup → a ∈ l → l.count a = 1
  | [], _, ha => absurd ha (by simp)
  | b :: t, hn, ha => by
    rw [List.count_cons]
    rcases List.mem_cons.mp ha with rfl | hat
    · have hnt : a ∉ t := (List.nodup_cons.mp hn).1
      rw [List.count_eq_zero.mpr hnt]
      simp
    · have hab : ¬ (a = b) := by
        rintro rfl
        exact (List.nodup_cons.mp hn).1 hat
      rw [count_one_of_nodup_mem (List.nodup_cons.mp hn).2 hat]
      have hba : ¬ (b = a) := fun hc => hab hc.symm
      simp [hab, hba]

theorem count_dLine_blockLines (p : RobotsPolicy) (d : Str) (hd : d ∈ p.disallow.getD []) :
    (policyBlockLines p).count (dLine d) = 1 := by
  rw [policyBlockLines_eq, List.count_cons, List.count_append]
  have h1 : ((uniq p.disallow).map dLine).count (dLine d) = 1 := by
    rw [uniq_eq_dedupFO, count_map_inj dLine dLine_injective]
    exact count_one_of_nodup_mem (nodup_dedupFO _) ((mem_dedupFO _ d).mpr hd)
  have h2 : ((uniq p.allow).map aLine).count (dLine d) = 0 := by
    rw [List.count_eq_zero]
    intro hmem
    obtain ⟨a, _, ha⟩ := List.mem_map.mp hmem
    exact dLine_ne_aLine d a ha.symm
  simp [h1, h2, uaLine_ne_dLine p d, Ne.symm (uaLine_ne_dLine p d)]

theorem count_aLine_blockLines (p : RobotsPolicy) (a : Str) (ha : a ∈ p.allow.getD []) :
    (policyBlockLines p).count (aLine a) = 1 := by
  rw [policyBlockLines_eq, List.count_cons, List.count_append]
  have h1 : ((uniq p.allow).map aLine).count (aLine a) = 1 := by
    rw [uniq_eq_dedupFO, count_map_inj aLine aLine_injective]
    exact count_one_of_nodup_mem (nodup_dedupFO _) ((mem_dedupFO _ a).mpr ha)
  have h2 : ((uniq p.disallow).map dLine).count (aLine a) = 0 := by
    rw [List.count_eq_zero]
    intro hmem
    obtain ⟨d, _, hd⟩ := List.mem_map.mp hmem
    exact dLine_ne_aLine d a hd
  simp [h1, h2, uaLine_ne_aLine p a, Ne.symm (uaLine_ne_aLine p a)]

/-! ### Claim C1 -/

/-- C1: within every rendered policy block, the `Disallow` and `Allow` lines
are exactly one line per distinct path, deduplicated with set semantics in
first-occurrence order: the block's lines are the user-agent line followed
by the `Disallow` lines of the first-occurrence deduplication of the input
disallow paths and then the `Allow` lines likewise, and every input path
(however often repeated) yields exactly one corresponding line. -/
theorem c1_block_dedup_first_occurrence (p : RobotsPolicy) :
    policyBlockLines p
        = uaLine p :: ((dedupFO (p.disallow.getD [])).map dLine
            ++ (dedupFO (p.allow.getD [])).map aLine)
      ∧ (∀ d ∈ p.disallow.getD [], (policyBlockLines p).count (dLine d) = 1)
      ∧ (∀ a ∈ p.allow.getD [], (policyBlockLines p).count (aLine a) = 1) := by
  refine ⟨?_, ?_, ?_⟩
  · rw [policyBlockLines_eq, uniq_eq_dedupFO, uniq_eq_dedupFO]
  · exact fun d hd => count_dLine_blockLines p d hd
  · exact fun a ha => count_aLine_blockLines p a ha

/-- A concrete policy with duplicated paths, for the C1 witness. -/
def polDup : RobotsPolicy :=
  { userAgent := some (str "Googlebot"),
    allow := some [str "/", str "/"],
    disallow := some [str "/a", str "/a", str "/b"] }

/-- Witness for C1 at a concrete policy with duplicates. -/
theorem c1_witness :
    (policyBlockLines polDup).count (dLine (str "/a")) = 1
      ∧ (policyBlockLines polDup).count (aLine (str "/")) = 1 :=
  ⟨(c1_block_dedup_first_occurrence polDup).2.1 (str "/a") (by decide),
   (c1_block_dedup_first_occurrence polDup).2.2 (str "/") (by decide)⟩

/-! ### Claim C2 -/

/-- C2: policy resolution precedence. A non-empty explicit `policies` list
is used verbatim whatever builder is supplied (so the builder cannot
influence the result and is never consulted); when the explicit list is
absent or empty and a builder is provided, the result is exactly the
builder applied to the context — an empty explicit list does not
short-circuit the builder. -/
theorem c2_policy_resolution_precedence (ctx : Ctx) (sm : SitemapsOpt) (fo : FooterOpt) :
    (∀ (l : List RobotsPolicy) (b : Option (Ctx → List RobotsPolicy)), l ≠ [] →
        resolvePolicies ctx
          { policies := some l, policyBuilder := b, sitemaps := sm, footerComment := fo } = l)
      ∧ (∀ (pol : Option (List RobotsPolicy)) (f : Ctx → List RobotsPolicy),
          (pol = none ∨ pol = some []) →
          resolvePolicies ctx
            { policies := pol, policyBuilder := some f, sitemaps := sm, footerComment := fo }
            = f ctx) := by
  constructor
  · intro l b hl
    simp [resolvePolicies, hl]
  · rintro pol f (rfl | rfl) <;> simp [resolvePolicies]

/-- A concrete explicit policy, for witnesses. -/
def polW : RobotsPolicy := { userAgent := some (str "Googlebot"), disallow := some [str "/private"] }

/-- Witness for C2: with a non-empty explicit list the builder result is
ignored; with an empty explicit list the builder result is used. -/
theorem c2_witness :
    resolvePolicies ctxW
        { policies := some [polW], policyBuilder := some fun _ => [],
          sitemaps := .absent, footerComment := .absent } = [polW]
      ∧ resolvePolicies ctxW
          { policies := some [], policyBuilder := some fun _ => [polW],
            sitemaps := .absent, footerComment := .absent } = [polW] :=
  ⟨(c2_policy_resolution_precedence ctxW .absent .absent).1 [polW] (some fun _ => []) (by simp),
   (c2_policy_resolution_precedence ctxW .absent .absent).2 (some []) (fun _ => [polW]) (Or.inr rfl)⟩

/-! ### Claim C3 -/

/-- Options whose builder returns the empty policy list. -/
def optsC3 : RobotsOptions := { policies := some [], policyBuilder := some fun _ => [] }

/-- C3 counterexample: with no explicit non-empty list and a builder
returning `[]`, the code does NOT fall back to the default allow-all
policy: the resolved set is empty and the head renders as a bare newline,
different from the default head. -/
theorem c3_counterexample :
    resolvePolicies ctxW optsC3 = []
      ∧ serializePolicies (resolvePolicies ctxW optsC3) = str "\n"
      ∧ ¬ serializePolicies (resolvePolicies ctxW optsC3) = serializePolicies defaultPolicies :=
  ⟨rfl, rfl, by decide⟩

/-- C3 (amended): when no explicit non-empty `policies` list is given and
the builder returns the empty list, that empty list is used as is (the
nullish-coalescing fallback fires only when no builder is supplied), and
the rendered head is a single bare newline, not the default head. -/
theorem c3_amended_empty_builder (ctx : Ctx) (o : RobotsOptions) (f : Ctx → List RobotsPolicy)
    (hp : o.policies = none ∨ o.policies = some []) (hb : o.policyBuilder = some f)
    (hf : f ctx = []) :
    resolvePolicies ctx o = [] ∧ serializePolicies (resolvePolicies ctx o) = str "\n" := by
  have h1 : resolvePolicies ctx o = [] := by
    rcases hp with hp | hp <;> simp [resolvePolicies, hp, hb, hf]
  exact ⟨h1, by rw [h1]; rfl⟩

/-- Witness for the amended C3 at concrete options. -/
theorem c3_amended_witness :
    resolvePolicies ctxW optsC3 = []
      ∧ serializePolicies (resolvePolicies ctxW optsC3) = str "\n" :=
  c3_amended_empty_builder ctxW optsC3 (fun _ => []) (Or.inr rfl) rfl rfl

/-! ### Claim C4 -/

/-- First concrete policy for the C4 failing input. -/
def pA4 : RobotsPolicy := { userAgent := some (str "a"), disallow := some [str "/x"] }

/-- Second concrete policy for the C4 failing input. -/
def pB4 : RobotsPolicy := { userAgent := some (str "b") }

/-- C4: evaluation of the code at the failing input. The source passes an
empty string to `lines(...)` as a block terminator, but `lines` filters
falsy values, so the terminator is dropped: consecutive `User-agent`
blocks are rendered with NO blank line between them, contradicting the
documented blank-line block termination. -/
theorem c4_blocks_not_blank_separated :
    serializePolicies [pA4, pB4] = str "User-agent: a\nDisallow: /x\nUser-agent: b\n"
      ∧ splitNl (serializePolicies [pA4, pB4])
          = [str "User-agent: a", str "Disallow: /x", str "User-agent: b", []] :=
  ⟨rfl, rfl⟩

/-! ### Claim C5 -/

/-- C5: with no policies, no builder, no sitemaps and no footer, the
output is exactly the default allow-all head, for every context. -/
theorem c5_default_output (ctx : Ctx) :
    buildContent ctx
        { policies := none, policyBuilder := none, sitemaps := .absent, footerComment := .absent }
      = str "User-agent: *\nAllow: /\n" := rfl

/-! ### Helper lemmas: line structure and trailing newlines -/

theorem splitNl_ne_nil : ∀ (s : Str), splitNl s ≠ []
  | [] => by simp [splitNl]
  | c :: cs => by
    rw [splitNl]
    by_cases h : c = '\n'
    · simp [h]
    · simp only [h, if_false]
      cases hs : splitNl cs <;> simp

theorem splitNl_append_cons : ∀ (A B : Str), splitNl (A ++ '\n' :: B) = splitNl A ++ splitNl B
  | [], B => by simp [splitNl]
  | c :: A', B => by
    by_cases h : c = '\n'
    · subst h
      rw [List.cons_append, splitNl, if_pos rfl, splitNl_append_cons A' B]
      conv_rhs => rw [splitNl, if_pos rfl]
      simp
    · rw [List.cons_append, splitNl, if_neg h, splitNl_append_cons A' B]
      conv_rhs => rw [splitNl, if_neg h]
      rcases hs : splitNl A' with _ | ⟨r, rs⟩
      · exact absurd hs (splitNl_ne_nil A')
      · simp [hs]

theorem splitNl_no_nl : ∀ (l : Str), '\n' ∉ l → splitNl l = [l]
  | [], _ => rfl
  | c :: cs, h => by
    have hc : ¬ c = '\n' := fun e => h (by simp [e])
    rw [splitNl, if_neg hc, splitNl_no_nl cs (fun hm => h (List.mem_cons_of_mem c hm))]

theorem splitNl_joinNl : ∀ (ls : List Str), ls ≠ [] → (∀ l ∈ ls, '\n' ∉ l) →
    splitNl (joinNl ls) = ls
  | [], h, _ => absurd rfl h
  | [l], _, h => by rw [joinNl]; exact splitNl_no_nl l (h l (by simp))
  | l :: m :: rest, _, h => by
    rw [joinNl, splitNl_append_cons, splitNl_no_nl l (h l (by simp)),
      splitNl_joinNl (m :: rest) (by simp) (fun x hx => h x (List.mem_cons_of_mem l hx))]
    rfl

theorem dropWhile_head_not (p : Char → Bool) : ∀ (l : Str) (c : Char) (cs : Str),
    l.dropWhile p = c :: cs → p c = false
  | [], c, cs, h => by simp [List.dropWhile] at h
  | a :: as, c, cs, h => by
    rw [List.dropWhile_cons] at h
    by_cases ha : p a
    · rw [if_pos ha] at h
      exact dropWhile_head_not p as c cs h
    · rw [if_neg ha] at h
      injection h with h1 h2
      subst h1
      simpa using ha

theorem takeWhile_dropWhile_nil (p : Char → Bool) (l : Str) :
    (l.dropWhile p).takeWhile p = [] := by
  rcases hd : l.dropWhile p with _ | ⟨c, cs⟩
  · rfl
  · have hc := dropWhile_head_not p l c cs hd
    rw [List.takeWhile_cons, hc]
    simp

theorem countTrailNl_snoc (A : Str) (c : Char) (hc : ¬ c = '\n') :
    countTrailNl (A ++ c :: ['\n']) = 1 := by
  rw [countTrailNl, List.reverse_append]
  have : (c :: ['\n']).reverse = '\n' :: [c] := rfl
  rw [this]
  rw [List.cons_append, List.takeWhile_cons]
  simp [hc]

theorem collapse_eq_self (s : Str) (h : countTrailNl s ≤ 2) : collapseEndNl s = s := by
  rw [collapseEndNl, if_neg]
  omega

theorem countTrailNl_collapse_le_two (s : Str) : countTrailNl (collapseEndNl s) ≤ 2 := by
  rw [collapseEndNl]
  by_cases h : 3 ≤ countTrailNl s
  · rw [if_pos h, countTrailNl, List.reverse_append, List.reverse_reverse]
    have : (str "\n\n").reverse = '\n' :: ['\n'] := rfl
    rw [this, List.cons_append, List.takeWhile_cons]
    simp [takeWhile_dropWhile_nil]
  · rw [if_neg h]
    omega

theorem suffix_three_nl (s : Str) (h : str "\n\n\n" <:+ s) : 3 ≤ countTrailNl s := by
  obtain ⟨t, ht⟩ := h
  have hs : s = t ++ ['\n', '\n', '\n'] := ht.symm
  subst hs
  rw [countTrailNl, List.reverse_append]
  simp [List.takeWhile_cons]

theorem joinNl_ends : ∀ (ls : List Str), ls ≠ [] →
    (∀ l ∈ ls, ∃ W c, l = W ++ [c] ∧ ¬ c = '\n') →
    ∃ W c, joinNl ls = W ++ [c] ∧ ¬ c = '\n'
  | [], h, _ => absurd rfl h
  | [l], _, h => by simpa [joinNl] using h l (by simp)
  | l :: m :: rest, _, h => by
    obtain ⟨W, c, hW, hc⟩ :=
      joinNl_ends (m :: rest) (by simp) (fun x hx => h x (List.mem_cons_of_mem l hx))
    exact ⟨l ++ '\n' :: W, c, by rw [joinNl, hW]; simp, hc⟩

theorem smLine_ends (u : Str) (hu : '\n' ∉ u) :
    ∃ W c, smLine u = W ++ [c] ∧ ¬ c = '\n' := by
  rcases List.eq_nil_or_concat u with rfl | ⟨W, c, rfl⟩
  · exact ⟨str "Sitemap:", ' ', rfl, by decide⟩
  · refine ⟨str "Sitemap: " ++ W, c, ?_, ?_⟩
    · rw [smLine, List.concat_eq_append, List.append_assoc]
    · intro e
      exact hu (by simp [e])

theorem smLine_no_nl (u : Str) (hu : '\n' ∉ u) : '\n' ∉ smLine u := by
  intro h
  rcases List.mem_append.mp h with h | h
  · exact absurd h (by decide)
  · exact hu h

theorem str_nl : str "\n" = ['\n'] := rfl

theorem str_hash_space : str "# " = ['#', ' '] := rfl

theorem head_smPart_ends (ctx : Ctx) (o : RobotsOptions) :
    ∃ X, serializePolicies (resolvePolicies ctx o) ++ smPartOf ctx o = X ++ ['\n'] := by
  by_cases h : smBlockOf ctx o = []
  · rw [smPartOf, if_pos h, List.append_nil]
    exact ⟨replaceWsEolFirst (joinNl ((resolvePolicies ctx o).map policyBlock)), rfl⟩
  · rw [smPartOf, if_neg h]
    have hY : ∃ Y, smBlockOf ctx o = Y ++ ['\n'] := by
      rcases hrs : resolveSitemaps ctx o with _ | us
      · exact absurd (by simp [smBlockOf, hrs]) h
      · by_cases hus : us = []
        · exact absurd (by simp [smBlockOf, hrs, hus]) h
        · exact ⟨joinNl (us.map smLine), by simp [smBlockOf, hrs, hus, str_nl]⟩
    obtain ⟨Y, hY⟩ := hY
    refine ⟨serializePolicies (resolvePolicies ctx o) ++ '\n' :: Y, ?_⟩
    rw [hY]
    simp

theorem jsTrim_last (s : Str) :
    jsTrim s = [] ∨ ∃ W c, jsTrim s = W ++ [c] ∧ isJsWs c = false := by
  rw [jsTrim]
  rcases hd : ((s.dropWhile isJsWs).reverse.dropWhile isJsWs) with _ | ⟨c, cs⟩
  · left; rfl
  · right
    exact ⟨cs.reverse, c, by rw [List.reverse_cons], dropWhile_head_not isJsWs _ c cs hd⟩

theorem countTrail_footer (X : Str) (t : Str)
    (ht : t = [] ∨ ∃ W c, t = W ++ [c] ∧ isJsWs c = false) :
    countTrailNl (X ++ ('\n' :: (str "# " ++ t ++ str "\n"))) = 1 := by
  rcases ht with rfl | ⟨W, c, rfl, hc⟩
  · have hre : X ++ ('\n' :: (str "# " ++ [] ++ str "\n")) = (X ++ ['\n', '#']) ++ (' ' :: ['\n']) := by
      rw [str_hash_space, str_nl]
      simp
    rw [hre]
    exact countTrailNl_snoc _ ' ' (by decide)
  · have hcn : ¬ c = '\n' := by
      intro e
      rw [e] at hc
      exact absurd hc (by decide)
    have hre : X ++ ('\n' :: (str "# " ++ (W ++ [c]) ++ str "\n"))
        = (X ++ '\n' :: (str "# " ++ W)) ++ (c :: ['\n']) := by
      rw [str_nl]
      simp
    rw [hre]
    exact countTrailNl_snoc _ c hcn

/-! ### Claim C6 -/

theorem footerBlockOf_cases (ctx : Ctx) (o : RobotsOptions) :
    footerBlockOf ctx o = []
      ∨ ∃ f, footerBlockOf ctx o = '\n' :: (str "# " ++ jsTrim f ++ str "\n") := by
  rcases hfo : resolveFooter ctx o with _ | f
  · exact Or.inl (by simp [footerBlockOf, hfo])
  · by_cases hfe : f = []
    · exact Or.inl (by simp [footerBlockOf, hfo, hfe])
    · refine Or.inr ⟨f, ?_⟩
      simp only [footerBlockOf, hfo]
      rw [if_neg hfe]

/-- C6: for every context and options, when the resolved sitemap sequence
is non-empty (urls being single-line strings), the output's lines are
exactly the head's lines, then one `Sitemap: <url>` line per entry in
order without deduplication (the blank separator line being the head's
terminating one), then the lines of the footer block — a single
terminating newline when no footer block follows; when the resolved
sequence is empty or absent, no sitemap block or separator is emitted at
all. -/
theorem c6_sitemap_rendering (ctx : Ctx) (o : RobotsOptions) :
    (∀ sm, resolveSitemaps ctx o = some sm → sm ≠ [] → (∀ u ∈ sm, '\n' ∉ u) →
        splitNl (buildContent ctx o)
          = splitNl (serializePolicies (resolvePolicies ctx o)) ++ sm.map smLine
              ++ splitNl (footerBlockOf ctx o))
      ∧ ((resolveSitemaps ctx o = none ∨ resolveSitemaps ctx o = some []) →
          buildContent ctx o
            = collapseEndNl (serializePolicies (resolvePolicies ctx o) ++ footerBlockOf ctx o)) := by
  constructor
  · intro sm h1 h2 h3
    have hsm : smBlockOf ctx o = joinNl (sm.map smLine) ++ ['\n'] := by
      simp only [smBlockOf, h1]
      rw [if_neg h2, str_nl]
    have hne : ¬ (smBlockOf ctx o = []) := by rw [hsm]; simp
    have hpart : smPartOf ctx o = '\n' :: (joinNl (sm.map smLine) ++ ['\n']) := by
      rw [smPartOf, if_neg hne, hsm]
    obtain ⟨W, c, hW, hc⟩ := joinNl_ends (sm.map smLine) (by simpa using h2)
      (by
        intro x hx
        obtain ⟨u, hu, rfl⟩ := List.mem_map.mp hx
        exact smLine_ends u (h3 u hu))
    have hcount : countTrailNl (serializePolicies (resolvePolicies ctx o)
        ++ smPartOf ctx o ++ footerBlockOf ctx o) = 1 := by
      rcases footerBlockOf_cases ctx o with hfb | ⟨f, hfb⟩
      · rw [hfb, List.append_nil, hpart, hW]
        have hre : serializePolicies (resolvePolicies ctx o) ++ '\n' :: ((W ++ [c]) ++ ['\n'])
            = (serializePolicies (resolvePolicies ctx o) ++ '\n' :: W) ++ (c :: ['\n']) := by
          simp
        rw [hre]
        exact countTrailNl_snoc _ c hc
      · rw [hfb]
        exact countTrail_footer _ (jsTrim f) (jsTrim_last f)
    rw [buildContent, collapse_eq_self _ (by omega)]
    rw [hpart]
    have hre2 : (serializePolicies (resolvePolicies ctx o)
          ++ '\n' :: (joinNl (sm.map smLine) ++ ['\n'])) ++ footerBlockOf ctx o
        = serializePolicies (resolvePolicies ctx o)
          ++ '\n' :: (joinNl (sm.map smLine) ++ '\n' :: footerBlockOf ctx o) := by
      simp
    rw [hre2, splitNl_append_cons, splitNl_append_cons,
      splitNl_joinNl (sm.map smLine) (by simpa using h2)
        (by
          intro x hx
          obtain ⟨u, hu, rfl⟩ := List.mem_map.mp hx
          exact smLine_no_nl u (h3 u hu)),
      List.append_assoc]
  · intro h
    have hsm : smBlockOf ctx o = [] := by
      rcases h with h | h
      · simp [smBlockOf, h]
      · simp [smBlockOf, h]
    rw [buildContent, smPartOf, if_pos hsm, List.append_nil]

/-- Concrete options with duplicated sitemap urls and a footer comment,
for the C6 witness. -/
def optsC6 : RobotsOptions :=
  { sitemaps := .arr [str "https://x/a.xml", str "https://x/a.xml"],
    footerComment := .strv (str "built by CI") }

/-- Witness for C6 at concrete duplicated sitemap urls with a footer
present (no dedup, and the sitemap property holds alongside the footer). -/
theorem c6_witness :
    splitNl (buildContent ctxW optsC6)
      = splitNl (serializePolicies (resolvePolicies ctxW optsC6))
          ++ [str "https://x/a.xml", str "https://x/a.xml"].map smLine
          ++ splitNl (footerBlockOf ctxW optsC6) :=
  (c6_sitemap_rendering ctxW optsC6).1 [str "https://x/a.xml", str "https://x/a.xml"] rfl
    (by decide) (by decide)

/-! ### Claim C7 -/

/-- Options with a whitespace-only footer comment. -/
def optsC7 : RobotsOptions := { footerComment := .strv (str " ") }

/-- Options with no footer comment at all. -/
def optsC7n : RobotsOptions := {}

/-- C7 counterexample: a footer of a single space is blank after trimming,
yet the code (whose guard is JS truthiness of the untrimmed string) still
emits a footer block — a bare comment line, making the output differ from
the footerless output. -/
theorem c7_counterexample :
    resolveFooter ctxW optsC7 = some (str " ")
      ∧ jsTrim (str " ") = []
      ∧ buildContent ctxW optsC7 = str "User-agent: *\nAllow: /\n\n# \n"
      ∧ ¬ buildContent ctxW optsC7 = buildContent ctxW optsC7n :=
  ⟨rfl, rfl, rfl, by decide⟩

/-- C7 (amended): the footer block is emitted exactly when the resolved
footer string is non-empty (JS truthiness), not when it is non-blank after
trimming: any non-empty footer makes the output end in a blank line, then
a comment line holding the trimmed footer, then a newline (the comment
line is bare for whitespace-only footers); no block is emitted only for
an absent or empty footer. -/
theorem c7_footer_truthiness (ctx : Ctx) (o : RobotsOptions) :
    (∀ f, resolveFooter ctx o = some f → f ≠ [] →
        ∃ X, buildContent ctx o
          = X ++ '\n' :: '\n' :: (str "# " ++ jsTrim f ++ str "\n"))
      ∧ ((resolveFooter ctx o = none ∨ resolveFooter ctx o = some []) →
          buildContent ctx o
            = collapseEndNl (serializePolicies (resolvePolicies ctx o) ++ smPartOf ctx o)) := by
  constructor
  · intro f h1 h2
    have hfoot : footerBlockOf ctx o = '\n' :: (str "# " ++ jsTrim f ++ str "\n") := by
      simp only [footerBlockOf, h1]
      rw [if_neg h2]
    obtain ⟨X, hX⟩ := head_smPart_ends ctx o
    have hle : countTrailNl ((X ++ ['\n']) ++ ('\n' :: (str "# " ++ jsTrim f ++ str "\n"))) ≤ 2 := by
      rw [countTrail_footer (X ++ ['\n']) (jsTrim f) (jsTrim_last f)]
      omega
    refine ⟨X, ?_⟩
    rw [buildContent, hfoot, hX, collapse_eq_self _ hle]
    simp
  · intro h
    have hfoot : footerBlockOf ctx o = [] := by
      rcases h with h | h
      · simp [footerBlockOf, h]
      · simp [footerBlockOf, h]
    rw [buildContent, hfoot, List.append_nil]

/-- Options with a padded footer comment, for the C7 witness. -/
def optsC7w : RobotsOptions := { footerComment := .strv (str "  built by CI  ") }

/-- Witness for the amended C7 at a concrete padded footer. -/
theorem c7_witness :
    ∃ X, buildContent ctxW optsC7w
      = X ++ '\n' :: '\n' :: (str "# " ++ jsTrim (str "  built by CI  ") ++ str "\n") :=
  (c7_footer_truthiness ctxW optsC7w).1 (str "  built by CI  ") rfl (by decide)

/-! ### Claim C8 -/

/-- Options matching the spec's concrete sitemap-plus-footer example. -/
def optsC8 : RobotsOptions :=
  { sitemaps := .arr [str "https://x/sitemap.xml"], footerComment := .strv (str "built by CI") }

set_option maxRecDepth 8192 in
/-- C8: the synthesized output never ends in three or more consecutive
newlines (the final collapse caps the terminal run at two); and on the
spec's concrete example the output is exactly the expected text, ends with
the sitemap block followed by the footer, and contains no
three-newline run anywhere. -/
theorem c8_end_newline_canonical (ctx : Ctx) (o : RobotsOptions) :
    ¬ (str "\n\n\n" <:+ buildContent ctx o)
      ∧ buildContent ctx optsC8
          = str "User-agent: *\nAllow: /\n\nSitemap: https://x/sitemap.xml\n\n# built by CI\n"
      ∧ ¬ (str "\n\n\n" <:+: buildContent ctx optsC8)
      ∧ (str "Sitemap: https://x/sitemap.xml\n" ++ str "\n# built by CI\n")
          <:+ buildContent ctx optsC8 := by
  have he : buildContent ctx optsC8
      = str "User-agent: *\nAllow: /\n\nSitemap: https://x/sitemap.xml\n\n# built by CI\n" := rfl
  refine ⟨?_, he, ?_, ?_⟩
  · intro h
    have h3 := suffix_three_nl _ h
    rw [buildContent] at h3
    have h2 := countTrailNl_collapse_le_two
      (serializePolicies (resolvePolicies ctx o) ++ smPartOf ctx o ++ footerBlockOf ctx o)
    omega
  · rw [he]
    decide
  · rw [he]
    decide

/-- Witness for C8 at a concrete context and the example options. -/
theorem c8_witness : ¬ (str "\n\n\n" <:+ buildContent ctxW optsC8) :=
  (c8_end_newline_canonical ctxW optsC8).1

/-! ### Claim C9 -/

theorem ensureDir_files (d : Str) (fs : FileSystem) : (ensureDir d fs).files = fs.files := by
  rw [ensureDir]
  split <;> rfl

theorem ensureDir_mem (d : Str) (fs : FileSystem) : d ∈ (ensureDir d fs).dirs := by
  rw [ensureDir]
  split
  · assumption
  · exact List.mem_cons_self _ _

theorem ensureDir_idem (d : Str) (fs : FileSystem) (hd : d ∈ fs.dirs) : ensureDir d fs = fs := by
  rw [ensureDir, if_pos hd]

/-- C9: the emit sink's write is idempotent. Starting from any state in
which the file does not already hold the content, the first invocation
writes; invoking again with the same content performs no write and leaves
the file system exactly as after the first invocation. -/
theorem c9_write_idempotent (dirname : Str → Str) (fp c : Str) (fs : FileSystem)
    (h : ¬ fs.files fp = some c) :
    (writeFileIfChanged dirname fp c fs).2 = true
      ∧ (writeFileIfChanged dirname fp c (writeFileIfChanged dirname fp c fs).1).2 = false
      ∧ (writeFileIfChanged dirname fp c (writeFileIfChanged dirname fp c fs).1).1
          = (writeFileIfChanged dirname fp c fs).1 := by
  have h1 : writeFileIfChanged dirname fp c fs
      = ({ ensureDir (dirname fp) fs with
            files := fun p => if p = fp then some c else (ensureDir (dirname fp) fs).files p },
         true) := by
    simp only [writeFileIfChanged]
    rw [if_pos]
    exact Or.inr (by rw [ensureDir_files]; exact h)
  have hmem : dirname fp ∈
      ({ ensureDir (dirname fp) fs with
          files := fun p => if p = fp then some c else (ensureDir (dirname fp) fs).files p }
        : FileSystem).dirs :=
    ensureDir_mem _ _
  have h2 : writeFileIfChanged dirname fp c
      ({ ensureDir (dirname fp) fs with
          files := fun p => if p = fp then some c else (ensureDir (dirname fp) fs).files p })
      = ({ ensureDir (dirname fp) fs with
            files := fun p => if p = fp then some c else (ensureDir (dirname fp) fs).files p },
         false) := by
    simp only [writeFileIfChanged]
    rw [ensureDir_idem _ _ hmem]
    rw [if_neg]
    simp
  rw [h1, h2]
  exact ⟨rfl, rfl, rfl⟩

/-- An initially empty file system, for the C9 witness. -/
def fs0 : FileSystem := { dirs := [], files := fun _ => none }

/-- Witness for C9 at a concrete path, content and empty file system. -/
theorem c9_witness :
    (writeFileIfChanged (fun _ => str "/public") (str "/public/robots.txt")
        (str "User-agent: *") fs0).2 = true
      ∧ (writeFileIfChanged (fun _ => str "/public") (str "/public/robots.txt")
          (str "User-agent: *")
          (writeFileIfChanged (fun _ => str "/public") (str "/public/robots.txt")
            (str "User-agent: *") fs0).1).2 = false
      ∧ (writeFileIfChanged (fun _ => str "/public") (str "/public/robots.txt")
          (str "User-agent: *")
          (writeFileIfChanged (fun _ => str "/public") (str "/public/robots.txt")
            (str "User-agent: *") fs0).1).1
          = (writeFileIfChanged (fun _ => str "/public") (str "/public/robots.txt")
              (str "User-agent: *") fs0).1 :=
  c9_write_idempotent (fun _ => str "/public") (str "/public/robots.txt")
    (str "User-agent: *") fs0 (by simp [fs0])

/-! ### Claim C10 -/

/-- The `sitemaps` option is plain data (no builder callback). -/
def staticSitemaps : SitemapsOpt → Prop
  | .func _ => False
  | _ => True

/-- The `footerComment` option is plain data (no builder callback). -/
def staticFooter : FooterOpt → Prop
  | .func _ => False
  | _ => True

/-- C10: context noninterference for static options. When no builder
callback is supplied (policies, sitemaps and footer given as plain data or
absent), synthesis yields byte-identical output for any two contexts, in
both variants of the source. -/
theorem c10_context_noninterference (ctx1 ctx2 : Ctx) (o : RobotsOptions)
    (h1 : o.policyBuilder = none) (h2 : staticSitemaps o.sitemaps)
    (h3 : staticFooter o.footerComment) :
    buildContent ctx1 o = buildContent ctx2 o
      ∧ buildContentA ctx1 o = buildContentA ctx2 o := by
  have hp : resolvePolicies ctx1 o = resolvePolicies ctx2 o := by
    simp only [resolvePolicies, h1]
  have hs : resolveSitemaps ctx1 o = resolveSitemaps ctx2 o := by
    rcases ho : o.sitemaps with _ | us | f
    · simp [resolveSitemaps, ho]
    · simp [resolveSitemaps, ho]
    · rw [ho] at h2
      exact h2.elim
  have hf : resolveFooter ctx1 o = resolveFooter ctx2 o := by
    rcases ho : o.footerComment with _ | s | f
    · simp [resolveFooter, ho]
    · simp [resolveFooter, ho]
    · rw [ho] at h3
      exact h3.elim
  have hsb : smBlockOf ctx1 o = smBlockOf ctx2 o := by
    rw [smBlockOf, smBlockOf, hs]
  have hsp : smPartOf ctx1 o = smPartOf ctx2 o := by
    rw [smPartOf, smPartOf, hsb]
  have hfb : footerBlockOf ctx1 o = footerBlockOf ctx2 o := by
    rw [footerBlockOf, footerBlockOf, hf]
  constructor
  · rw [buildContent, buildContent, hp, hsp, hfb]
  · rw [buildContentA, buildContentA, hp, hsp, hfb]

/-- Static concrete options, for the C10 witness. -/
def optsC10 : RobotsOptions :=
  { policies := some [polW], sitemaps := .arr [str "/sm.xml"],
    footerComment := .strv (str "hi") }

/-- Witness for C10 at two distinct concrete contexts. -/
theorem c10_witness :
    buildContent ctxW optsC10 = buildContent ctxW2 optsC10
      ∧ buildContentA ctxW optsC10 = buildContentA ctxW2 optsC10 :=
  c10_context_noninterference ctxW ctxW2 optsC10 rfl trivial trivial
